import Mathlib

/-!
Verification development for the nlogin flat-file record store
(src/index.js). The JavaScript source is shallowly embedded: JS objects
holding string fields become association lists in insertion order, the
backing file becomes the string it contains, and the two random
generators become explicit string parameters supplied per call. The
JS regex engine used by the user-supplied `match` rule is a parameter
`re : String → String → Bool` (`re pat v` models the truthiness of
`v.match(pat)`); the fixed character-class regexes of the other rules
are implemented directly. `JSON.stringify(data, null, 4)` and
`JSON.parse` are modelled by an executable serializer and parser for
the fragment of JSON the store reads and writes (arrays of flat objects
with string values, arbitrary whitespace between tokens, full string
escaping).
-/

set_option maxHeartbeats 1000000

namespace Nlogin

/-- A record: a JS object in insertion order mapping field names to string
values (values are strings in practice, per the data model). -/
abbrev Record := List (String × String)

/-- `user[key]` on a JS object: the value at the first (unique) occurrence
of the key, `none` when the property is absent (`undefined`). -/
def getField : Record → String → Option String
  | [], _ => none
  | (k0, v0) :: rest, k => if k0 = k then some v0 else getField rest k

/-- `user[key] = value` on a JS object: overwrite in place when the key is
present (keeping its position), otherwise append the property at the end. -/
def setField : Record → String → String → Record
  | [], k, v => [(k, v)]
  | (k0, v0) :: rest, k, v =>
      if k0 = k then (k, v) :: rest else (k0, v0) :: setField rest k v

/-- A filter (or a modify patch): a JS object mapping field names to
exact-match string values, in insertion order. -/
abbrev Filter := List (String × String)

/-- The filter-matching loop of `Userbase.get` (src/index.js lines 31-37):
`found` starts `true` and every key of the input whose value differs from
the record's (strict `!==`, where an absent property is `undefined` and
never equals a present string) sets it to `false`. -/
def recordMatches (input : Filter) (user : Record) : Bool :=
  input.foldl
    (fun found kv => if getField user kv.1 ≠ some kv.2 then false else found)
    true

/-! ## Rule validator (`checkRules`, src/index.js lines 188-213) -/

/-- The rule set accepted by `checkRules`. `matchPat` embeds the JS field
`rules.match` (`match` is a Lean keyword); numeric rules are `Option Nat`
so that an absent key is distinguishable from a present zero, and boolean
rules default to `false` (JS `undefined` is falsy). -/
structure RuleSet where
  minLength : Option Nat := none
  maxLength : Option Nat := none
  matchPat : Option String := none
  noSpaces : Bool := false
  noSpecialCharacters : Bool := false
  noNumbers : Bool := false
  noLetters : Bool := false
  deriving Repr, DecidableEq

/-- The result shape of `fail(message)` / `{success: true}` in
src/index.js lines 181-186 and 210-212. -/
structure RuleResult where
  success : Bool
  message : Option String
  deriving Repr, DecidableEq

/-- `fail(message)` (src/index.js lines 181-186). -/
def fail (message : String) : RuleResult := ⟨false, some message⟩

/-- The `{success: true}` value returned when every check passes
(`message` is `undefined` there). -/
def passed : RuleResult := ⟨true, none⟩

/-- JS truthiness of an optional number (`undefined` and `0` are falsy). -/
def natTruthy : Option Nat → Bool
  | none => false
  | some n => n ≠ 0

/-- JS truthiness of an optional string (`undefined` and `""` are falsy). -/
def strTruthy : Option String → Bool
  | none => false
  | some s => s ≠ ""

/-- The character class of the JS regex `/\s/` (ASCII whitespace range;
the unicode space classes are irrelevant to the claims). -/
def isSpaceChar (c : Char) : Bool :=
  c = ' ' || c = '\t' || c = '\n' || c = '\x0b' || c = '\x0c' || c = '\r'

/-- The character class of the JS regex `/[a-zA-Z0-9]/`. -/
def isWordChar (c : Char) : Bool :=
  ('a' ≤ c && c ≤ 'z') || ('A' ≤ c && c ≤ 'Z') || ('0' ≤ c && c ≤ '9')

/-- The character class of the JS regex `/\d/`. -/
def isDigitChar (c : Char) : Bool := '0' ≤ c && c ≤ '9'

/-- The character class of the JS regex `/[a-zA-Z]/`. -/
def isLetterChar (c : Char) : Bool :=
  ('a' ≤ c && c ≤ 'z') || ('A' ≤ c && c ≤ 'Z')

/-- The `minLength` check: skipped when the key is absent or `0` (JS
truthiness of `rules.minLength`), otherwise fails when the value is
shorter. Returns the failure message, `none` when the check passes. -/
def ruleMinLength (rules : RuleSet) (value : String) : Option String :=
  match rules.minLength with
  | none => none
  | some n =>
      if n = 0 then none
      else if value.length < n then
        some ("Value must be at least " ++ toString n ++ " characters long!")
      else none

/-- The `maxLength` check, with the same truthiness guard. -/
def ruleMaxLength (rules : RuleSet) (value : String) : Option String :=
  match rules.maxLength with
  | none => none
  | some n =>
      if n = 0 then none
      else if value.length > n then
        some ("Value must be at most " ++ toString n ++ " characters long!")
      else none

/-- The `match` check: skipped when the pattern is absent or the empty
string (falsy), otherwise fails when `value.match(pattern)` is falsy,
which the regex-engine parameter `re` decides. -/
def ruleMatch (re : String → String → Bool) (rules : RuleSet)
    (value : String) : Option String :=
  match rules.matchPat with
  | none => none
  | some pat =>
      if pat = "" then none
      else if !(re pat value) then
        some ("Value must match the following regex: " ++ pat)
      else none

/-- The `noSpaces` check (`value.match(/\s/)`). -/
def ruleNoSpaces (rules : RuleSet) (value : String) : Option String :=
  if rules.noSpaces && value.data.any isSpaceChar then
    some "Value must not contain any spaces!"
  else none

/-- The `noSpecialCharacters` check (`value.match(/[^a-zA-Z0-9]/)`). -/
def ruleNoSpecialCharacters (rules : RuleSet) (value : String) :
    Option String :=
  if rules.noSpecialCharacters && value.data.any (fun c => !(isWordChar c)) then
    some "Value must not contain any special characters!"
  else none

/-- The `noNumbers` check (`value.match(/\d/)`). -/
def ruleNoNumbers (rules : RuleSet) (value : String) : Option String :=
  if rules.noNumbers && value.data.any isDigitChar then
    some "Value must not contain any numbers!"
  else none

/-- The `noLetters` check (`value.match(/[a-zA-Z]/)`). -/
def ruleNoLetters (rules : RuleSet) (value : String) : Option String :=
  if rules.noLetters && value.data.any isLetterChar then
    some "Value must not contain any letters!"
  else none

/-- `checkRules(value, rules)` (src/index.js lines 188-213): the seven
checks run in source order, each `return fail(...)` short-circuiting the
rest, and `{success: true}` is returned when none fires. -/
def checkRules (re : String → String → Bool) (value : String)
    (rules : RuleSet) : RuleResult :=
  match ruleMinLength rules value with
  | some m => fail m
  | none =>
  match ruleMaxLength rules value with
  | some m => fail m
  | none =>
  match ruleMatch re rules value with
  | some m => fail m
  | none =>
  match ruleNoSpaces rules value with
  | some m => fail m
  | none =>
  match ruleNoSpecialCharacters rules value with
  | some m => fail m
  | none =>
  match ruleNoNumbers rules value with
  | some m => fail m
  | none =>
  match ruleNoLetters rules value with
  | some m => fail m
  | none => passed

/-- Modelled from the spec (section 4.1): the validator applies the checks
in the fixed order minLength, maxLength, match, noSpaces,
noSpecialCharacters, noNumbers, noLetters and returns the failure of the
first check that fails, success when none fails. Stated as the first
failure of the explicitly ordered list of checks, to be compared with
`checkRules` above, which was translated from the source. -/
def checkRulesSpec (re : String → String → Bool) (value : String)
    (rules : RuleSet) : RuleResult :=
  match ([ruleMinLength rules value,
          ruleMaxLength rules value,
          ruleMatch re rules value,
          ruleNoSpaces rules value,
          ruleNoSpecialCharacters rules value,
          ruleNoNumbers rules value,
          ruleNoLetters rules value].filterMap id).head? with
  | some m => fail m
  | none => passed

/-! ## `JSON.stringify(data, null, 4)` (used by `Userbase.save`) -/

/-- Lowercase hexadecimal digit, as emitted inside `\uXXXX` escapes. -/
def hexDigit (n : Nat) : Char :=
  if n < 10 then Char.ofNat (48 + n) else Char.ofNat (87 + n)

/-- `JSON.stringify` escaping of one character inside a string literal:
quote and backslash get a backslash escape, the named control escapes are
used where they exist, the remaining control characters become `\u00XX`,
everything else is emitted literally. -/
def escChar (c : Char) : List Char :=
  if c = '"' then ['\\', '"']
  else if c = '\\' then ['\\', '\\']
  else if c = '\x08' then ['\\', 'b']
  else if c = '\t' then ['\\', 't']
  else if c = '\n' then ['\\', 'n']
  else if c = '\x0c' then ['\\', 'f']
  else if c = '\r' then ['\\', 'r']
  else if c.toNat < 32 then
    ['\\', 'u', '0', '0', hexDigit (c.toNat / 16), hexDigit (c.toNat % 16)]
  else [c]

/-- A JSON string literal for `s`, quotes included. -/
def encodeString (s : String) : List Char :=
  '"' :: ((s.data.map escChar).flatten ++ ['"'])

/-- Four spaces: the indentation unit passed to `JSON.stringify`. -/
def indent4 : List Char := [' ', ' ', ' ', ' ']

/-- Eight spaces: the indentation of an object entry nested in the array. -/
def indent8 : List Char := indent4 ++ indent4

/-- The lines of a non-empty object body as `JSON.stringify(_, null, 4)`
prints them inside the top-level array: each `"key": "value"` entry
indented eight spaces, entries separated by a comma and newline. -/
def encodeEntries : List (String × String) → List Char
  | [] => []
  | [kv] => indent8 ++ encodeString kv.1 ++ ':' :: ' ' :: encodeString kv.2
  | kv :: rest =>
      indent8 ++ encodeString kv.1 ++ ':' :: ' ' :: encodeString kv.2 ++
        ',' :: '\n' :: encodeEntries rest

/-- One record as printed at depth 1: `{}` when empty, otherwise the
entries block framed by braces, the closing brace indented four spaces. -/
def encodeRecord (r : Record) : List Char :=
  match r with
  | [] => ['\x7b', '\x7d']
  | _ => '\x7b' :: '\n' :: (encodeEntries r ++ '\n' :: (indent4 ++ ['\x7d']))

/-- The elements of a non-empty array, each indented four spaces and
separated by a comma and newline. -/
def encodeElems : List Record → List Char
  | [] => []
  | [r] => indent4 ++ encodeRecord r
  | r :: rest => indent4 ++ encodeRecord r ++ ',' :: '\n' :: encodeElems rest

/-- The full array: `[]` when empty, otherwise the elements framed by
brackets on their own lines. -/
def encodeData : List Record → List Char
  | [] => ['[', ']']
  | ds => '[' :: '\n' :: (encodeElems ds ++ '\n' :: [']'])

/-- `JSON.stringify(this.data, null, 4)` (src/index.js line 146). -/
def stringifyData (d : List Record) : String := String.mk (encodeData d)

/-! ## `JSON.parse` (used by the constructor), restricted to the fragment
the store persists: arrays of flat objects with string values. -/

/-- JSON insignificant whitespace. -/
def isWsChar (c : Char) : Bool :=
  c = ' ' || c = '\n' || c = '\t' || c = '\r'

/-- Drop leading insignificant whitespace. -/
def skipWs : List Char → List Char
  | [] => []
  | c :: cs => if isWsChar c then skipWs cs else c :: cs

/-- Value of one hexadecimal digit. -/
def hexVal (c : Char) : Option Nat :=
  if '0' ≤ c && c ≤ '9' then some (c.toNat - 48)
  else if 'a' ≤ c && c ≤ 'f' then some (c.toNat - 87)
  else if 'A' ≤ c && c ≤ 'F' then some (c.toNat - 55)
  else none

/-- The single-character JSON string escapes. -/
def unescapeChar (e : Char) : Option Char :=
  if e = '"' then some '"'
  else if e = '\\' then some '\\'
  else if e = '/' then some '/'
  else if e = 'b' then some '\x08'
  else if e = 't' then some '\t'
  else if e = 'n' then some '\n'
  else if e = 'f' then some '\x0c'
  else if e = 'r' then some '\r'
  else none

/-- Scan a JSON string literal after its opening quote, returning the
decoded characters and the input after the closing quote. `\uXXXX`
escapes outside the scalar range are rejected (surrogate pairs are out
of this model's scope; the serializer only emits `\u00XX`). -/
def parseStringBody : List Char → Option (List Char × List Char)
  | [] => none
  | c :: cs =>
      if c = '"' then some ([], cs)
      else if c = '\\' then
        match cs with
        | 'u' :: h1 :: h2 :: h3 :: h4 :: cs4 =>
            (match hexVal h1, hexVal h2, hexVal h3, hexVal h4 with
             | some a, some b, some c3, some d =>
                 let n := ((a * 16 + b) * 16 + c3) * 16 + d
                 if n < 55296 then
                   (fun p => (Char.ofNat n :: p.1, p.2)) <$> parseStringBody cs4
                 else if 57343 < n ∧ n < 1114112 then
                   (fun p => (Char.ofNat n :: p.1, p.2)) <$> parseStringBody cs4
                 else none
             | _, _, _, _ => none)
        | e :: cs2 =>
            (match unescapeChar e with
             | some d => (fun p => (d :: p.1, p.2)) <$> parseStringBody cs2
             | none => none)
        | [] => none
      else (fun p => (c :: p.1, p.2)) <$> parseStringBody cs

/-- A JSON string token: leading whitespace, then a quoted literal. -/
def parseJString (l : List Char) : Option (String × List Char) :=
  if (skipWs l).head? = some '"' then
    (parseStringBody (skipWs l).tail).map (fun p => (String.mk p.1, p.2))
  else none

/-- The entries of an object after its opening brace, when at least one
entry is present: `"key" : "value"` pairs separated by commas, closed by
a brace. The fuel bounds the number of entries. -/
def parseEntriesAux : Nat → List Char → Option (Record × List Char)
  | 0, _ => none
  | fuel + 1, l =>
      (parseJString l).bind fun kr =>
        if (skipWs kr.2).head? = some ':' then
          (parseJString (skipWs kr.2).tail).bind fun vr =>
            if (skipWs vr.2).head? = some ',' then
              (parseEntriesAux fuel (skipWs vr.2).tail).map
                (fun p => ((kr.1, vr.1) :: p.1, p.2))
            else if (skipWs vr.2).head? = some '\x7d' then
              some ([(kr.1, vr.1)], (skipWs vr.2).tail)
            else none
        else none

/-- One object: an opening brace, then either an immediate closing brace
(empty object) or its entries. -/
def parseRecordAt (fuel : Nat) (l : List Char) : Option (Record × List Char) :=
  if (skipWs l).head? = some '\x7b' then
    if (skipWs (skipWs l).tail).head? = some '\x7d' then
      some ([], (skipWs (skipWs l).tail).tail)
    else parseEntriesAux fuel (skipWs l).tail
  else none

/-- The elements of a non-empty array: objects separated by commas,
closed by a bracket. The fuel bounds the total number of elements and
entries. -/
def parseRecordsAux : Nat → List Char → Option (List Record × List Char)
  | 0, _ => none
  | fuel + 1, l =>
      (parseRecordAt fuel l).bind fun rr =>
        if (skipWs rr.2).head? = some ',' then
          (parseRecordsAux fuel (skipWs rr.2).tail).map
            (fun p => (rr.1 :: p.1, p.2))
        else if (skipWs rr.2).head? = some ']' then
          some ([rr.1], (skipWs rr.2).tail)
        else none

/-- `JSON.parse` on the persisted format: a single array of flat objects
with string values, with nothing but whitespace after it. -/
def parseData (s : String) : Option (List Record) :=
  if (skipWs s.data).head? = some '[' then
    if (skipWs (skipWs s.data).tail).head? = some ']' then
      if (skipWs (skipWs (skipWs s.data).tail).tail).isEmpty then some []
      else none
    else
      (parseRecordsAux s.data.length (skipWs s.data).tail).bind fun p =>
        if (skipWs p.2).isEmpty then some p.1 else none
  else none

/-! ## The record store (`class Userbase`, src/index.js) -/

/-- The observable state of a `Userbase` instance: the in-memory record
array `data` and the contents `file` of the backing root file. -/
structure DB where
  data : List Record
  file : String
  deriving Repr, DecidableEq

/-- `Userbase.save` (src/index.js lines 145-147): overwrite the root file
with the pretty-printed serialization of the in-memory array. -/
def save (db : DB) : DB := { db with file := stringifyData db.data }

/-- `Userbase.get` (src/index.js lines 28-40): a falsy input (absent —
`none` here) returns the internal array itself; otherwise the records
passing the matching loop, in storage order. -/
def get (db : DB) (input : Option Filter) : List Record :=
  match input with
  | none => db.data
  | some f => db.data.filter (fun user => recordMatches f user)

/-- One field descriptor of the `add` input: `{value, noDuplicate?,
rules?}` (absent `noDuplicate` is falsy, absent `rules` is `none`). -/
structure FieldSpec where
  value : String
  noDuplicate : Bool := false
  rules : Option RuleSet := none
  deriving Repr, DecidableEq

/-- The `add` input: field descriptors in key-iteration order. -/
abbrev FieldSpecs := List (String × FieldSpec)

/-- The duplicate-check-and-assign tail of the `forEach` callback of
`Userbase.add` (src/index.js lines 95-107), reached when the key has no
rules or its rules passed: a `noDuplicate` hit stores its message in
`failed` (overwriting any earlier value) and ends the iteration without
assigning; otherwise `user[key] = value`. -/
def addStepNoDup (db : DB) (acc : Record × Option String)
    (kv : String × FieldSpec) : Record × Option String :=
  if kv.2.noDuplicate && decide (0 < (get db (some [(kv.1, kv.2.value)])).length) then
    (acc.1, some ("A user with this " ++ kv.1 ++ " already exists!"))
  else (setField acc.1 kv.1 kv.2.value, acc.2)

/-- One iteration of the `forEach` callback of `Userbase.add`
(src/index.js lines 86-108) over the accumulated `(user, failed)` pair.
A failed rule check stores `tryCheck.message` in `failed` and ends only
this iteration (`return fail(...)` inside a `forEach` callback does not
stop the loop), skipping the duplicate check and the assignment for this
key. -/
def addStep (re : String → String → Bool) (db : DB)
    (acc : Record × Option String) (kv : String × FieldSpec) :
    Record × Option String :=
  match kv.2.rules with
  | some rules =>
      let tryCheck := checkRules re kv.2.value rules
      if !tryCheck.success then (acc.1, tryCheck.message)
      else addStepNoDup db acc kv
  | none => addStepNoDup db acc kv

/-- The value `Userbase.add` returns when it does not throw: the
structured failure `fail(failed)` or `{success: true, user}`. -/
inductive AddOutcome where
  | failure (message : String)
  | success (user : Record)
  deriving Repr, DecidableEq

/-- `Userbase.add` (src/index.js lines 64-121): throws on a falsy input;
otherwise runs the callback over every key, and afterwards either returns
`fail(failed)` when `failed` is truthy, or assigns `token` then `id`
(the two generated strings, supplied here as parameters), pushes the new
record and saves. -/
def add (re : String → String → Bool) (tok theId : String) (db : DB)
    (input : Option FieldSpecs) : Except String (AddOutcome × DB) :=
  match input with
  | none => Except.error "No input specified!"
  | some inp =>
      let loopResult := inp.foldl (addStep re db) ([], none)
      if strTruthy loopResult.2 then
        Except.ok (AddOutcome.failure (loopResult.2.getD ""), db)
      else
        let user := setField (setField loopResult.1 "token" tok) "id" theId
        Except.ok (AddOutcome.success user,
          save { db with data := db.data ++ [user] })

/-- `this.data.splice(this.data.indexOf(user), 1)` (src/index.js line
135): remove the first occurrence of the record. `indexOf` compares by
object identity; in this value model the spliced records are the matched
elements of `data` themselves, so removing the first structurally equal
element coincides with it (and the `indexOf` result is never `-1`). -/
def removeFirst : List Record → Record → List Record
  | [], _ => []
  | x :: xs, u => if x = u then xs else x :: removeFirst xs u

/-- `Userbase.remove` (src/index.js lines 128-140): throws on a falsy
input; with zero matches returns `false` without touching anything;
otherwise splices each matched record out of `data`, saves, and returns
`true`. -/
def remove (db : DB) (input : Option Filter) : Except String (Bool × DB) :=
  match input with
  | none => Except.error "No input specified!"
  | some f =>
      let users := get db (some f)
      if users.length = 0 then Except.ok (false, db)
      else
        let newData := users.foldl removeFirst db.data
        Except.ok (true, save { db with data := newData })

/-- The inner `forEach` of `Userbase.modify` (src/index.js lines
171-173): overwrite each key of the patch onto the record, in patch-key
order. -/
def applyPatch (user : Record) (patch : Filter) : Record :=
  patch.foldl (fun u kv => setField u kv.1 kv.2) user

/-- `Userbase.modify` (src/index.js lines 163-178): throws on a falsy
`find` or (then) a falsy `modify` argument; with zero matches returns
`false` without touching anything; otherwise patches every matched
record in place — in this value model, every record of `data` that
matches the filter — saves once, and returns `true`. -/
def modify (db : DB) (find : Option Filter) (patch : Option Filter) :
    Except String (Bool × DB) :=
  match find with
  | none => Except.error "No find input specified!"
  | some f =>
      match patch with
      | none => Except.error "No modify input specified!"
      | some p =>
          let users := get db (some f)
          if users.length = 0 then Except.ok (false, db)
          else
            let newData :=
              db.data.map (fun u => if recordMatches f u then applyPatch u p else u)
            Except.ok (true, save { db with data := newData })

/-- The `Userbase` constructor (src/index.js lines 10-21): throws on a
falsy root file path; a missing file is created holding `[]` (modelled by
`contents = none`); the contents are then parsed, a parse failure
throwing an error that names the root file. -/
def userbase (rootFile : Option String) (contents : Option String) :
    Except String DB :=
  if !(strTruthy rootFile) then Except.error "No root file specified!"
  else
    match parseData (contents.getD "[]") with
    | some d => Except.ok { data := d, file := contents.getD "[]" }
    | none =>
        Except.error
          ("Invalid JSON stored in root file! " ++ rootFile.getD "")

/-- One `add` call in a scripted run: the two generated strings for this
call and the field specification passed in. -/
structure AddCall where
  tok : String
  theId : String
  input : Option FieldSpecs
  deriving Repr

/-- Run a sequence of `add` calls, requiring every one to succeed
(`none` as soon as a call throws or returns a structured failure). -/
def runAddsOk (re : String → String → Bool) : DB → List AddCall → Option DB
  | db, [] => some db
  | db, c :: cs =>
      match add re c.tok c.theId db c.input with
      | Except.ok (AddOutcome.success _, db2) => runAddsOk re db2 cs
      | _ => none

/-- Size measure of a parsed array, bounding the fuel the parser needs:
one unit per element plus one per entry. -/
def sizeBound : List Record → Nat
  | [] => 0
  | r :: ds => r.length + 1 + sizeBound ds

/-! ## Helper lemmas about filters and records -/

theorem recordMatches_foldl_false (user : Record) (l : Filter) :
    l.foldl (fun found kv =>
      if getField user kv.1 ≠ some kv.2 then false else found) false = false := by
  induction l with
  | nil => rfl
  | cons a t ih =>
      rw [List.foldl_cons, ite_self]
      exact ih

/-- `recordMatches` is the conjunction, over the filter keys, of strict
equality between the record's value and the filter's value. -/
theorem recordMatches_eq_all (input : Filter) (user : Record) :
    recordMatches input user =
      input.all (fun kv => getField user kv.1 = some kv.2) := by
  unfold recordMatches
  induction input with
  | nil => rfl
  | cons kv rest ih =>
      rw [List.foldl_cons, List.all_cons]
      by_cases h : getField user kv.1 = some kv.2
      · rw [if_neg (by simp [h]), ih]
        simp [h]
      · rw [if_pos (by simp [h]), recordMatches_foldl_false]
        simp [h]

theorem getField_setField_self (r : Record) (k v : String) :
    getField (setField r k v) k = some v := by
  induction r with
  | nil => simp [setField, getField]
  | cons kv rest ih =>
      obtain ⟨k0, v0⟩ := kv
      by_cases h : k0 = k
      · subst h
        simp [setField, getField]
      · simp [setField, getField, h, ih]

theorem getField_setField_other (r : Record) (k v k2 : String) (h : k2 ≠ k) :
    getField (setField r k v) k2 = getField r k2 := by
  induction r with
  | nil => simp [setField, getField, Ne.symm h]
  | cons kv rest ih =>
      obtain ⟨k0, v0⟩ := kv
      by_cases h0 : k0 = k
      · subst h0
        simp [setField, getField, Ne.symm h]
      · simp [setField, getField, h0, ih]

theorem applyPatch_cons (u : Record) (kv : String × String) (rest : Filter) :
    applyPatch u (kv :: rest) = applyPatch (setField u kv.1 kv.2) rest := rfl

theorem getField_applyPatch_not_mem (p : Filter) (u : Record) (k : String)
    (h : k ∉ p.map Prod.fst) : getField (applyPatch u p) k = getField u k := by
  induction p generalizing u with
  | nil => rfl
  | cons kv rest ih =>
      simp only [List.map_cons, List.mem_cons, not_or] at h
      rw [applyPatch_cons, ih _ h.2, getField_setField_other _ _ _ _ h.1]

theorem getField_applyPatch_mem (p : Filter) (u : Record) (k v : String)
    (hnd : (p.map Prod.fst).Nodup) (hmem : (k, v) ∈ p) :
    getField (applyPatch u p) k = some v := by
  induction p generalizing u with
  | nil => simp at hmem
  | cons kv rest ih =>
      rw [List.map_cons] at hnd
      rw [applyPatch_cons]
      rcases List.mem_cons.mp hmem with hkv | hrest
      · obtain rfl : kv = (k, v) := hkv.symm
        have hnotin : k ∉ rest.map Prod.fst := (List.nodup_cons.mp hnd).1
        rw [getField_applyPatch_not_mem rest _ _ hnotin]
        exact getField_setField_self _ _ _
      · exact ih _ (List.nodup_cons.mp hnd).2 hrest

theorem recordMatches_applyPatch (p : Filter) (u : Record)
    (hnd : (p.map Prod.fst).Nodup) : recordMatches p (applyPatch u p) = true := by
  rw [recordMatches_eq_all, List.all_eq_true]
  intro kv hkv
  simp only [decide_eq_true_eq]
  exact getField_applyPatch_mem p u kv.1 kv.2 hnd (by simpa using hkv)

/-! ## Claim theorems: get (C2) -/

/-- Claim C2: `get` with no argument returns the internal record sequence
itself; `get` with a filter returns exactly the records agreeing with
every filter key under strict equality (a record missing a filtered key
never matches), in storage order (a sublist of the data). Repeated calls
without intervening mutation trivially return equal results because `get`
is a pure function of the store state and the filter in this embedding. -/
theorem claim_C2_get_semantics (db : DB) (f : Filter) :
    get db none = db.data ∧
    (∀ u, u ∈ get db (some f) ↔
        u ∈ db.data ∧ ∀ kv ∈ f, getField u kv.1 = some kv.2) ∧
    (get db (some f)).Sublist db.data ∧
    (∀ u kv, kv ∈ f → getField u kv.1 = none → u ∉ get db (some f)) := by
  refine ⟨rfl, ?_, ?_, ?_⟩
  · intro u
    simp [get, List.mem_filter, recordMatches_eq_all, List.all_eq_true]
  · exact List.filter_sublist db.data
  · intro u kv hkv hnone hmem
    simp only [get, List.mem_filter] at hmem
    have hall := hmem.2
    rw [recordMatches_eq_all, List.all_eq_true] at hall
    have := hall kv hkv
    simp [hnone] at this

/-- Witness for C2 at a concrete store: the empty record does not match
the filter `{k: v}` because the key is absent. -/
theorem claim_C2_get_semantics_witness :
    (("k", "v") ∈ ([("k", "v")] : Filter)) ∧
    getField [] "k" = none ∧
    ([] : Record) ∉ get ⟨[[]], "f"⟩ (some [("k", "v")]) :=
  ⟨by decide, by decide,
   (claim_C2_get_semantics ⟨[[]], "f"⟩ [("k", "v")]).2.2.2 [] ("k", "v")
     (by decide) (by decide)⟩

/-! ## Claim theorems: checkRules (C4) -/

theorem checkRules_eq_spec (re : String → String → Bool) (value : String)
    (rules : RuleSet) :
    checkRules re value rules = checkRulesSpec re value rules := by
  unfold checkRules checkRulesSpec
  cases h1 : ruleMinLength rules value <;>
    cases h2 : ruleMaxLength rules value <;>
      cases h3 : ruleMatch re rules value <;>
        cases h4 : ruleNoSpaces rules value <;>
          cases h5 : ruleNoSpecialCharacters rules value <;>
            cases h6 : ruleNoNumbers rules value <;>
              cases h7 : ruleNoLetters rules value <;>
                simp [List.filterMap]

/-- Claim C4: the validator applies the checks in the fixed order
minLength, maxLength, match, noSpaces, noSpecialCharacters, noNumbers,
noLetters and returns the failure of the first failing check (stated as
equality with `checkRulesSpec`, the first-failure-of-the-ordered-list
formulation; each check's message names its constraint and parameter in
the check definitions); and a rule key that is present but zero (for the
numeric rules) or the empty string (for the pattern) is skipped exactly
like an absent key — in particular `minLength: 0` enforces nothing. -/
theorem claim_C4_checkRules_order (re : String → String → Bool)
    (value : String) (rules : RuleSet) :
    checkRules re value rules = checkRulesSpec re value rules ∧
    checkRules re value { rules with minLength := some 0 } =
      checkRules re value { rules with minLength := none } ∧
    checkRules re value { rules with maxLength := some 0 } =
      checkRules re value { rules with maxLength := none } ∧
    checkRules re value { rules with matchPat := some "" } =
      checkRules re value { rules with matchPat := none } :=
  ⟨checkRules_eq_spec re value rules, rfl, rfl, rfl⟩

/-! ## Claim theorems: add failure behaviour (C1, C5) -/

/-- Unfolding of `add` on a present input. -/
theorem add_some (re : String → String → Bool) (tok theId : String)
    (db : DB) (inp : FieldSpecs) :
    add re tok theId db (some inp) =
      if strTruthy (inp.foldl (addStep re db) ([], none)).2 then
        Except.ok
          (AddOutcome.failure ((inp.foldl (addStep re db) ([], none)).2.getD ""),
           db)
      else
        Except.ok
          (AddOutcome.success
            (setField (setField (inp.foldl (addStep re db) ([], none)).1
              "token" tok) "id" theId),
           save { db with data := db.data ++
             [setField (setField (inp.foldl (addStep re db) ([], none)).1
               "token" tok) "id" theId] }) := rfl

/-- Claim C1: whenever `add` (with an input present) returns a structured
failure, the store is exactly as before the call: the record sequence and
the file are untouched, so nothing was appended and no save happened.
Moreover `add` with an input present never throws: every validation or
duplicate failure is the structured `{success: false, message}` result. -/
theorem claim_C1_add_failure_leaves_store (re : String → String → Bool)
    (tok theId : String) (db : DB) (input : FieldSpecs) :
    (∀ m db2, add re tok theId db (some input) =
        Except.ok (AddOutcome.failure m, db2) →
      db2 = db ∧ db2.data = db.data ∧ db2.file = db.file) ∧
    (∀ e, add re tok theId db (some input) ≠ Except.error e) := by
  constructor
  · intro m db2 h
    unfold add at h
    by_cases hs : strTruthy (input.foldl (addStep re db) ([], none)).2
    · simp only [hs, if_true] at h
      obtain ⟨-, rfl⟩ := by simpa using h
      exact ⟨rfl, rfl, rfl⟩
    · simp only [hs, if_false] at h
      simp at h
  · intro e h
    unfold add at h
    by_cases hs : strTruthy (input.foldl (addStep re db) ([], none)).2 <;>
      simp [hs] at h

/-- Witness for C1: a duplicate-check failure at a concrete store leaves
it untouched. -/
theorem claim_C1_add_failure_leaves_store_witness :
    add (fun _ _ => true) "T" "I" ⟨[[("k", "v")]], "f"⟩
        (some [("k", ⟨"v", true, none⟩)]) =
      Except.ok (AddOutcome.failure "A user with this k already exists!",
        ⟨[[("k", "v")]], "f"⟩) ∧
    (⟨[[("k", "v")]], "f"⟩ : DB) = ⟨[[("k", "v")]], "f"⟩ :=
  ⟨rfl,
   ((claim_C1_add_failure_leaves_store (fun _ _ => true) "T" "I"
       ⟨[[("k", "v")]], "f"⟩ [("k", ⟨"v", true, none⟩)]).1
     "A user with this k already exists!" ⟨[[("k", "v")]], "f"⟩
     rfl).1⟩

/-- Counterexample to claim C5 as stated: with two fields that both fail
their rules, `add` returns the message of the second (last) failure, not
the first — the `forEach` in the source keeps iterating after a failure,
so later fields are still validated. -/
theorem claim_C5_counterexample :
    add (fun _ _ => false) "T" "I" ⟨[], "[]"⟩
        (some [("a", ⟨"x", false, some { minLength := some 3 }⟩),
               ("b", ⟨"y", false, some { minLength := some 5 }⟩)]) =
      Except.ok
        (AddOutcome.failure "Value must be at least 5 characters long!",
         ⟨[], "[]"⟩) ∧
    "Value must be at least 5 characters long!" ≠
      "Value must be at least 3 characters long!" :=
  ⟨rfl, by decide⟩

/-- Claim C5 amended: when two fields in iteration order both fail their
rule checks, the whole operation still aborts with a structured failure
and an untouched store, but every field is processed and the returned
message is the LAST failure in iteration order (each later failure
overwrites `failed`), not the first. -/
theorem claim_C5_amended_last_failure (re : String → String → Bool)
    (tok theId : String) (db : DB) (k1 k2 v1 v2 : String)
    (r1 r2 : RuleSet) (m1 m2 : String)
    (h1 : checkRules re v1 r1 = fail m1)
    (h2 : checkRules re v2 r2 = fail m2) (hm2 : m2 ≠ "") :
    add re tok theId db
        (some [(k1, ⟨v1, false, some r1⟩), (k2, ⟨v2, false, some r2⟩)]) =
      Except.ok (AddOutcome.failure m2, db) := by
  have hstep :
      ([(k1, ⟨v1, false, some r1⟩),
        (k2, ⟨v2, false, some r2⟩)] : FieldSpecs).foldl (addStep re db)
        ([], none) = ([], some m2) := by
    simp only [List.foldl_cons, List.foldl_nil]
    rw [show addStep re db ([], none) (k1, ⟨v1, false, some r1⟩) =
          ([], some m1) by simp [addStep, h1, fail]]
    simp [addStep, h2, fail]
  rw [add_some, hstep]
  simp [strTruthy, hm2]

/-- Witness for the amended C5 at concrete rules and values. -/
theorem claim_C5_amended_last_failure_witness :
    checkRules (fun _ _ => false) "x" { minLength := some 3 } =
      fail "Value must be at least 3 characters long!" ∧
    checkRules (fun _ _ => false) "y" { minLength := some 5 } =
      fail "Value must be at least 5 characters long!" ∧
    ("Value must be at least 5 characters long!" : String) ≠ "" ∧
    add (fun _ _ => false) "T" "I" ⟨[], "[]"⟩
        (some [("a", ⟨"x", false, some { minLength := some 3 }⟩),
               ("b", ⟨"y", false, some { minLength := some 5 }⟩)]) =
      Except.ok
        (AddOutcome.failure "Value must be at least 5 characters long!",
         ⟨[], "[]"⟩) :=
  ⟨by decide, by decide, by decide,
   claim_C5_amended_last_failure (fun _ _ => false) "T" "I" ⟨[], "[]"⟩
     "a" "b" "x" "y" { minLength := some 3 } { minLength := some 5 }
     "Value must be at least 3 characters long!"
     "Value must be at least 5 characters long!"
     (by decide) (by decide) (by decide)⟩

/-! ## Claim theorems: noDuplicate (C3) -/

theorem already_exists_msg_ne_empty (key : String) :
    ("A user with this " ++ key ++ " already exists!") ≠ "" := by
  intro h
  have hlen := congrArg String.length h
  rw [String.length_append, String.length_append] at hlen
  have h1 : ("A user with this " : String).length = 17 := rfl
  have h2 : (" already exists!" : String).length = 16 := rfl
  have h3 : ("" : String).length = 0 := rfl
  omega

theorem already_exists_isInfix (key : String) :
    List.IsInfix ("already exists").data
      ("A user with this " ++ key ++ " already exists!").data := by
  refine ⟨("A user with this " ++ key).data ++ [' '], ['!'], ?_⟩
  have h1 : ("A user with this " ++ key ++ " already exists!").data =
      ("A user with this " ++ key).data ++ (" already exists!").data :=
    String.data_append _ _
  have hdecomp : (" already exists!" : String).data =
      ' ' :: (("already exists").data ++ ['!']) := rfl
  rw [h1, hdecomp]
  simp

theorem dup_check_iff (db : DB) (key value : String) :
    0 < (get db (some [(key, value)])).length ↔
      ∃ u ∈ db.data, getField u key = some value := by
  rw [List.length_pos_iff_exists_mem]
  constructor
  · rintro ⟨u, hu⟩
    have hm := List.mem_filter.mp hu
    refine ⟨u, hm.1, ?_⟩
    have h2 := hm.2
    rw [recordMatches_eq_all] at h2
    simpa using h2
  · rintro ⟨u, hu, hv⟩
    exact ⟨u, List.mem_filter.mpr ⟨hu, by rw [recordMatches_eq_all]; simp [hv]⟩⟩

/-- Computation of `add` on a single field with `noDuplicate` set and no
rules: failure exactly when the current store already matches. -/
theorem add_single_noDup (re : String → String → Bool) (tok theId : String)
    (db : DB) (key value : String) :
    add re tok theId db (some [(key, ⟨value, true, none⟩)]) =
      if 0 < (get db (some [(key, value)])).length then
        Except.ok (AddOutcome.failure
          ("A user with this " ++ key ++ " already exists!"), db)
      else
        Except.ok (AddOutcome.success
          (setField (setField [(key, value)] "token" tok) "id" theId),
         save { db with data := db.data ++
           [setField (setField [(key, value)] "token" tok) "id" theId] }) := by
  rw [add_some]
  simp only [List.foldl_cons, List.foldl_nil]
  by_cases hd : 0 < (get db (some [(key, value)])).length
  · rw [if_pos hd]
    rw [show addStep re db ([], none) (key, ⟨value, true, none⟩) =
        ([], some ("A user with this " ++ key ++ " already exists!")) by
      simp [addStep, addStepNoDup, hd]]
    simp [strTruthy, already_exists_msg_ne_empty key]
  · rw [if_neg hd]
    rw [show addStep re db ([], none) (key, ⟨value, true, none⟩) =
        ([(key, value)], none) by
      simp [addStep, addStepNoDup, hd, setField]]
    simp [strTruthy]

/-- Claim C3: for a field added with `noDuplicate` (and no rules), `add`
fails iff some record already in the store (before the call) has that
field strictly equal to the supplied value; the failure message is the
"already exists" message; and for a non-reserved key, adding twice with
the same value succeeds once (no self-collision: the check runs against
the store before the append) and fails the second time, leaving the size
at its post-first-add value. -/
theorem claim_C3_noDuplicate (re : String → String → Bool)
    (tok theId tok2 theId2 : String) (db : DB) (key value : String) :
    ((∃ m db2, add re tok theId db (some [(key, ⟨value, true, none⟩)]) =
        Except.ok (AddOutcome.failure m, db2)) ↔
      ∃ u ∈ db.data, getField u key = some value) ∧
    (∀ m db2, add re tok theId db (some [(key, ⟨value, true, none⟩)]) =
        Except.ok (AddOutcome.failure m, db2) →
      m = "A user with this " ++ key ++ " already exists!" ∧
      List.IsInfix ("already exists").data m.data) ∧
    (key ≠ "token" → key ≠ "id" →
      (¬ ∃ u ∈ db.data, getField u key = some value) →
      ∃ user db2 m db3,
        add re tok theId db (some [(key, ⟨value, true, none⟩)]) =
          Except.ok (AddOutcome.success user, db2) ∧
        db2.data.length = db.data.length + 1 ∧
        add re tok2 theId2 db2 (some [(key, ⟨value, true, none⟩)]) =
          Except.ok (AddOutcome.failure m, db3) ∧
        db3.data = db2.data) := by
  refine ⟨?_, ?_, ?_⟩
  · rw [add_single_noDup]
    by_cases hd : 0 < (get db (some [(key, value)])).length
    · rw [if_pos hd]
      simp only [(dup_check_iff db key value).mp hd, iff_true]
      exact ⟨_, db, rfl⟩
    · rw [if_neg hd]
      constructor
      · rintro ⟨m, db2, h⟩
        simp at h
      · intro hex
        exact absurd ((dup_check_iff db key value).mpr hex) hd
  · intro m db2 h
    rw [add_single_noDup] at h
    by_cases hd : 0 < (get db (some [(key, value)])).length
    · rw [if_pos hd] at h
      obtain ⟨hm, -⟩ := by simpa using h
      subst hm
      exact ⟨rfl, already_exists_isInfix key⟩
    · rw [if_neg hd] at h
      simp at h
  · intro hk1 hk2 hno
    have hd : ¬ 0 < (get db (some [(key, value)])).length := by
      intro hpos
      exact hno ((dup_check_iff db key value).mp hpos)
    set user := setField (setField [(key, value)] "token" tok) "id" theId with huser
    have hget : getField user key = some value := by
      rw [huser, getField_setField_other _ _ _ _ hk2,
        getField_setField_other _ _ _ _ hk1]
      simp [getField]
    refine ⟨user, save { db with data := db.data ++ [user] },
      "A user with this " ++ key ++ " already exists!",
      save { db with data := db.data ++ [user] }, ?_, ?_, ?_, rfl⟩
    · rw [add_single_noDup, if_neg hd]
    · simp [save]
    · rw [add_single_noDup, if_pos ?_]
      apply (dup_check_iff _ key value).mpr
      exact ⟨user, by simp [save], hget⟩

/-- Witness for C3 at a concrete key and empty store: the first add
succeeds, the second fails with the store size unchanged. -/
theorem claim_C3_noDuplicate_witness :
    ("k" : String) ≠ "token" ∧ ("k" : String) ≠ "id" ∧
    (¬ ∃ u ∈ (⟨[], "[]"⟩ : DB).data, getField u "k" = some "v") ∧
    (∃ user db2 m db3,
      add (fun _ _ => true) "T" "I" ⟨[], "[]"⟩
          (some [("k", ⟨"v", true, none⟩)]) =
        Except.ok (AddOutcome.success user, db2) ∧
      db2.data.length = (⟨[], "[]"⟩ : DB).data.length + 1 ∧
      add (fun _ _ => true) "T2" "I2" db2 (some [("k", ⟨"v", true, none⟩)]) =
        Except.ok (AddOutcome.failure m, db3) ∧
      db3.data = db2.data) :=
  ⟨by decide, by decide, by simp,
   (claim_C3_noDuplicate (fun _ _ => true) "T" "I" "T2" "I2"
       ⟨[], "[]"⟩ "k" "v").2.2 (by decide) (by decide) (by simp)⟩

/-! ## Unfoldings of remove and modify -/

theorem remove_some (db : DB) (f : Filter) :
    remove db (some f) =
      if (get db (some f)).length = 0 then Except.ok (false, db)
      else
        Except.ok (true,
          save ⟨(get db (some f)).foldl removeFirst db.data, db.file⟩) := rfl

theorem modify_some (db : DB) (f p : Filter) :
    modify db (some f) (some p) =
      if (get db (some f)).length = 0 then Except.ok (false, db)
      else
        Except.ok (true,
          save ⟨db.data.map
            (fun u => if recordMatches f u then applyPatch u p else u),
            db.file⟩) :=
  rfl

/-! ## Claim theorems: id and token under modify (C6) -/

/-- Counterexample to claim C6 as stated: a `modify` patch that names
`id` overwrites it — nothing in the source protects the reserved fields,
so a record's `id` does not survive every sequence of operations. -/
theorem claim_C6_counterexample :
    modify ⟨[[("id", "A"), ("token", "T"), ("name", "x")]], "f"⟩
        (some [("name", "x")]) (some [("id", "B")]) =
      Except.ok (true,
        ⟨[[("id", "B"), ("token", "T"), ("name", "x")]],
         stringifyData [[("id", "B"), ("token", "T"), ("name", "x")]]⟩) ∧
    getField [("id", "B"), ("token", "T"), ("name", "x")] "id" ≠ some "A" :=
  ⟨rfl, by decide⟩

/-- Claim C6 amended: `modify` preserves every record's `id` and `token`
provided the patch does not itself name `id` or `token`; the source has
no guard, so a patch naming them overwrites them. -/
theorem claim_C6_amended_id_token_preserved (db : DB) (f p : Filter)
    (b : Bool) (db2 : DB)
    (hid : "id" ∉ p.map Prod.fst) (htok : "token" ∉ p.map Prod.fst)
    (h : modify db (some f) (some p) = Except.ok (b, db2)) :
    db2.data.map (fun r => (getField r "id", getField r "token")) =
      db.data.map (fun r => (getField r "id", getField r "token")) := by
  rw [modify_some] at h
  by_cases hz : (get db (some f)).length = 0
  · rw [if_pos hz] at h
    obtain ⟨-, rfl⟩ := by simpa using h
    rfl
  · rw [if_neg hz] at h
    obtain ⟨-, rfl⟩ := by simpa using h
    simp only [save, List.map_map]
    apply List.map_congr_left
    intro u hu
    by_cases hm : recordMatches f u
    · simp only [Function.comp, hm, if_true,
        getField_applyPatch_not_mem p u _ hid,
        getField_applyPatch_not_mem p u _ htok]
    · simp [Function.comp, hm]

/-- Witness for the amended C6: a patch avoiding the reserved keys
preserves them. -/
theorem claim_C6_amended_id_token_preserved_witness :
    (("id" : String) ∉ ([("name", "y")] : Filter).map Prod.fst) ∧
    [[("id", "A"), ("token", "T"), ("name", "y")]].map
        (fun r => (getField r "id", getField r "token")) =
      [[("id", "A"), ("token", "T"), ("name", "x")]].map
        (fun r => (getField r "id", getField r "token")) :=
  ⟨by decide,
   claim_C6_amended_id_token_preserved
     ⟨[[("id", "A"), ("token", "T"), ("name", "x")]], "f"⟩
     [("name", "x")] [("name", "y")] true
     ⟨[[("id", "A"), ("token", "T"), ("name", "y")]],
      stringifyData [[("id", "A"), ("token", "T"), ("name", "y")]]⟩
     (by decide) (by decide) rfl⟩

/-! ## Claim theorems: remove (C7) -/

theorem foldl_removeFirst_skip (p : Record → Bool) (ms : List Record) :
    ∀ (x : Record) (xs : List Record),
      (∀ m ∈ ms, p m = true) → p x = false →
      List.foldl removeFirst (x :: xs) ms =
        x :: List.foldl removeFirst xs ms := by
  induction ms with
  | nil => intro x xs _ _; rfl
  | cons m ms ih =>
      intro x xs hall hx
      have hmx : x ≠ m := by
        intro heq
        have hpm := hall m (List.mem_cons_self m ms)
        rw [← heq, hx] at hpm
        exact Bool.noConfusion hpm
      rw [List.foldl_cons, List.foldl_cons,
        show removeFirst (x :: xs) m = x :: removeFirst xs m by
          simp [removeFirst, hmx]]
      exact ih x (removeFirst xs m)
        (fun m2 hm2 => hall m2 (List.mem_cons_of_mem _ hm2)) hx

/-- Splicing out each filter-match of a list, first occurrence at a time,
leaves exactly the non-matching elements in order. -/
theorem foldl_removeFirst_filter (p : Record → Bool) (d : List Record) :
    List.foldl removeFirst d (d.filter p) = d.filter (fun x => !(p x)) := by
  induction d with
  | nil => rfl
  | cons x xs ih =>
      by_cases hp : p x = true
      · rw [List.filter_cons_of_pos hp, List.foldl_cons,
          show removeFirst (x :: xs) x = xs by simp [removeFirst],
          ih, List.filter_cons_of_neg (by simp [hp])]
      · have hp2 : p x = false := by simpa using hp
        rw [List.filter_cons_of_neg hp,
          foldl_removeFirst_skip p (xs.filter p) x xs
            (fun m hm => List.of_mem_filter hm) hp2,
          ih, List.filter_cons_of_pos (by simp [hp2])]

/-- Counterexample to claim C7 as stated: a present but empty filter is
not rejected with a configuration error — `!input` is false for `{}` —
and instead matches (and here removes) every record. -/
theorem claim_C7_counterexample :
    remove ⟨[[("k", "v")]], "f"⟩ (some []) = Except.ok (true, ⟨[], "[]"⟩) :=
  rfl

/-- Claim C7 amended: `remove` throws its configuration error only on an
absent (falsy) filter argument; an empty filter is accepted. With zero
matches it returns `false` leaving data and file untouched; otherwise it
removes each matched record exactly once — the result is exactly the
non-matching records in order, so N matches shrink the store by exactly
N even among duplicate-valued records — persists, and returns `true`. -/
theorem claim_C7_amended_remove (db : DB) (f : Filter) :
    remove db none = Except.error "No input specified!" ∧
    (get db (some f) = [] → remove db (some f) = Except.ok (false, db)) ∧
    (get db (some f) ≠ [] →
      remove db (some f) = Except.ok (true,
        ⟨db.data.filter (fun u => !(recordMatches f u)),
         stringifyData (db.data.filter (fun u => !(recordMatches f u)))⟩)) ∧
    (∀ b db2, remove db (some f) = Except.ok (b, db2) →
      db.data.length = db2.data.length + (get db (some f)).length) := by
  have hfold : (get db (some f)).foldl removeFirst db.data =
      db.data.filter (fun u => !(recordMatches f u)) :=
    foldl_removeFirst_filter (fun user => recordMatches f user) db.data
  refine ⟨rfl, ?_, ?_, ?_⟩
  · intro hz
    rw [remove_some, if_pos (by simp [hz])]
  · intro hnz
    rw [remove_some,
      if_neg (fun hzz => hnz (List.eq_nil_of_length_eq_zero hzz)), hfold]
    rfl
  · intro b db2 h
    rw [remove_some] at h
    by_cases hz : (get db (some f)).length = 0
    · rw [if_pos hz] at h
      obtain ⟨-, rfl⟩ := by simpa using h
      omega
    · rw [if_neg hz] at h
      obtain ⟨-, rfl⟩ := by simpa using h
      have hlen : db.data.length =
          (db.data.filter (fun user => recordMatches f user)).length +
            (db.data.filter (fun x => !(recordMatches f x))).length :=
        List.length_eq_length_filter_add _
      simp only [save, hfold]
      have hget : (get db (some f)).length =
          (db.data.filter (fun user => recordMatches f user)).length := rfl
      rw [hget]
      omega

/-- Witness for the amended C7 with duplicate-valued records: two
structurally equal matches are each removed exactly once. -/
theorem claim_C7_amended_remove_witness :
    (get ⟨[[("k", "v")], [("k", "v")], [("k", "w")]], "f"⟩
        (some [("k", "v")]) ≠ []) ∧
    remove ⟨[[("k", "v")], [("k", "v")], [("k", "w")]], "f"⟩
        (some [("k", "v")]) =
      Except.ok (true, ⟨[[("k", "w")]], stringifyData [[("k", "w")]]⟩) :=
  ⟨by decide,
   (claim_C7_amended_remove ⟨[[("k", "v")], [("k", "v")], [("k", "w")]], "f"⟩
       [("k", "v")]).2.2.1 (by decide)⟩

/-! ## Claim theorems: modify (C8) -/

/-- Claim C8: `modify` throws a configuration error when the filter or
the patch argument is absent; with zero matches it returns `false`
leaving data and file untouched; otherwise it overwrites every patch key
onto every matched record (running neither validation nor a duplicate
check — `checkRules` is simply never invoked), persists once, returns
`true`, and each patched record is found by a subsequent `get` on the
patch values. -/
theorem claim_C8_modify (db : DB) (f p : Filter) (q : Option Filter) :
    modify db none q = Except.error "No find input specified!" ∧
    modify db (some f) none = Except.error "No modify input specified!" ∧
    (get db (some f) = [] →
      modify db (some f) (some p) = Except.ok (false, db)) ∧
    (get db (some f) ≠ [] →
      modify db (some f) (some p) = Except.ok (true,
        ⟨db.data.map (fun u => if recordMatches f u then applyPatch u p else u),
         stringifyData (db.data.map
           (fun u => if recordMatches f u then applyPatch u p else u))⟩)) ∧
    ((p.map Prod.fst).Nodup →
      ∀ u ∈ db.data, recordMatches f u = true →
      ∀ b db2, modify db (some f) (some p) = Except.ok (b, db2) →
        applyPatch u p ∈ get db2 (some p)) := by
  refine ⟨rfl, rfl, ?_, ?_, ?_⟩
  · intro hz
    rw [modify_some, if_pos (by simp [hz])]
  · intro hnz
    rw [modify_some,
      if_neg (fun hzz => hnz (List.eq_nil_of_length_eq_zero hzz))]
    rfl
  · intro hnd u hu hm b db2 h
    have hne : get db (some f) ≠ [] :=
      List.ne_nil_of_mem (List.mem_filter.mpr ⟨hu, hm⟩)
    rw [modify_some,
      if_neg (fun hzz => hne (List.eq_nil_of_length_eq_zero hzz))] at h
    obtain ⟨-, rfl⟩ := by simpa using h
    apply List.mem_filter.mpr
    constructor
    · simp only [save]
      exact List.mem_map.mpr ⟨u, hu, by rw [if_pos hm]⟩
    · exact recordMatches_applyPatch p u hnd

/-- Witness for C8 at a concrete store: the patched record is returned
by a subsequent `get` on the patch. -/
theorem claim_C8_modify_witness :
    (([("k", "v2")] : Filter).map Prod.fst).Nodup ∧
    ([("k", "v1")] : Record) ∈ (⟨[[("k", "v1")]], "f"⟩ : DB).data ∧
    recordMatches [("k", "v1")] [("k", "v1")] = true ∧
    applyPatch [("k", "v1")] [("k", "v2")] ∈
      get ⟨[[("k", "v2")]], stringifyData [[("k", "v2")]]⟩
        (some [("k", "v2")]) :=
  ⟨by decide, by decide, by decide,
   (claim_C8_modify ⟨[[("k", "v1")]], "f"⟩ [("k", "v1")] [("k", "v2")]
       none).2.2.2.2 (by decide) [("k", "v1")] (by decide) (by decide)
     true ⟨[[("k", "v2")]], stringifyData [[("k", "v2")]]⟩ rfl⟩

/-! ## Claim theorems: the empty filter (C10) -/

/-- Claim C10: an empty filter object vacuously matches every record
(its conjunction of key checks is empty), so `get` with it returns the
whole store, `remove` with it (on a non-empty store) removes every
record and returns true, `modify` with it patches every record and
returns true; the configuration guards of `remove` and `modify` reject
only an absent (falsy) argument, not an empty object. -/
theorem claim_C10_empty_filter (db : DB) (p : Filter) :
    get db (some []) = db.data ∧
    (db.data ≠ [] → remove db (some []) = Except.ok (true, ⟨[], "[]"⟩)) ∧
    (db.data ≠ [] → modify db (some []) (some p) = Except.ok (true,
      ⟨db.data.map (fun u => applyPatch u p),
       stringifyData (db.data.map (fun u => applyPatch u p))⟩)) ∧
    remove db none = Except.error "No input specified!" ∧
    modify db none (some p) = Except.error "No find input specified!" := by
  have hrm : ∀ u : Record, recordMatches [] u = true := fun u => rfl
  have hget : get db (some []) = db.data := by
    rw [show get db (some []) =
        db.data.filter (fun user => recordMatches [] user) from rfl]
    simp [hrm]
  have hnzlen : db.data ≠ [] → ¬ (get db (some [])).length = 0 := by
    intro hne hzz
    exact hne (by rw [← hget]; exact List.eq_nil_of_length_eq_zero hzz)
  refine ⟨hget, ?_, ?_, rfl, rfl⟩
  · intro hne
    have hfold : (get db (some [])).foldl removeFirst db.data = [] := by
      rw [show get db (some []) =
          db.data.filter (fun user => recordMatches [] user) from rfl,
        foldl_removeFirst_filter]
      simp [hrm]
    rw [remove_some, if_neg (hnzlen hne), hfold]
    rfl
  · intro hne
    rw [modify_some, if_neg (hnzlen hne)]
    have hmap : db.data.map
        (fun u => if recordMatches [] u then applyPatch u p else u) =
          db.data.map (fun u => applyPatch u p) := by
      apply List.map_congr_left
      intro u hu
      rw [if_pos (hrm u)]
    rw [hmap]
    rfl

/-- Witness for C10 at a one-record store: the empty filter removes
everything and returns true. -/
theorem claim_C10_empty_filter_witness :
    ((⟨[[("a", "1")]], "f"⟩ : DB).data ≠ []) ∧
    remove ⟨[[("a", "1")]], "f"⟩ (some []) = Except.ok (true, ⟨[], "[]"⟩) :=
  ⟨by decide,
   (claim_C10_empty_filter ⟨[[("a", "1")]], "f"⟩ []).2.1 (by decide)⟩

/-! ## The JSON round trip (towards C9): string bodies -/

theorem hexVal_hexDigit (n : Nat) (h : n < 16) :
    hexVal (hexDigit n) = some n := by
  interval_cases n <;> decide

theorem skipWs_append_ws (ws l : List Char)
    (h : ∀ c ∈ ws, isWsChar c = true) : skipWs (ws ++ l) = skipWs l := by
  induction ws with
  | nil => rfl
  | cons c cs ih =>
      rw [List.cons_append,
        show skipWs (c :: (cs ++ l)) = skipWs (cs ++ l) by
          simp [skipWs, h c (List.mem_cons_self c cs)]]
      exact ih (fun c2 hc2 => h c2 (List.mem_cons_of_mem _ hc2))

theorem skipWs_cons_not (c : Char) (l : List Char)
    (h : isWsChar c = false) : skipWs (c :: l) = c :: l := by
  simp [skipWs, h]

theorem psb_cons_lit (c : Char) (hq : c ≠ '"') (hb : c ≠ '\\')
    (t : List Char) :
    parseStringBody (c :: t) =
      Option.map (fun p => (c :: p.1, p.2)) (parseStringBody t) := by
  rw [parseStringBody.eq_def]
  split
  · rename_i heq
    exact absurd heq (by simp)
  · rename_i c2 cs2 heq
    injection heq with h1 h2
    subst h1
    subst h2
    rw [if_neg hq, if_neg hb]
    rfl

theorem psb_esc (e d : Char) (he : unescapeChar e = some d) (hu : e ≠ 'u')
    (t : List Char) :
    parseStringBody ('\\' :: e :: t) =
      Option.map (fun p => (d :: p.1, p.2)) (parseStringBody t) := by
  rw [parseStringBody.eq_3 '\\' e t (fun _ _ _ _ _ heq _ => hu heq)]
  rw [if_neg (by decide), if_pos rfl, he]
  rfl

theorem psb_u (c : Char) (h : c.toNat < 32) (t : List Char) :
    parseStringBody ('\\' :: 'u' :: '0' :: '0' ::
        hexDigit (c.toNat / 16) :: hexDigit (c.toNat % 16) :: t) =
      Option.map (fun p => (c :: p.1, p.2)) (parseStringBody t) := by
  have hdiv : c.toNat / 16 < 16 := by omega
  have hmod : c.toNat % 16 < 16 := by omega
  rw [parseStringBody.eq_2]
  rw [if_neg (by decide), if_pos rfl]
  rw [show hexVal '0' = some 0 from rfl,
    hexVal_hexDigit _ hdiv, hexVal_hexDigit _ hmod]
  dsimp only
  have harith : ((0 * 16 + 0) * 16 + c.toNat / 16) * 16 + c.toNat % 16 =
      c.toNat := by omega
  rw [harith, if_pos (by omega), Char.ofNat_toNat]
  rfl

theorem psb_escChar (c : Char) (t : List Char) :
    parseStringBody (escChar c ++ t) =
      Option.map (fun p => (c :: p.1, p.2)) (parseStringBody t) := by
  by_cases h1 : c = '"'
  · subst h1
    exact psb_esc '"' '"' rfl (by decide) t
  by_cases h2 : c = '\\'
  · subst h2
    exact psb_esc '\\' '\\' rfl (by decide) t
  by_cases h3 : c = '\x08'
  · subst h3
    exact psb_esc 'b' '\x08' rfl (by decide) t
  by_cases h4 : c = '\t'
  · subst h4
    exact psb_esc 't' '\t' rfl (by decide) t
  by_cases h5 : c = '\n'
  · subst h5
    exact psb_esc 'n' '\n' rfl (by decide) t
  by_cases h6 : c = '\x0c'
  · subst h6
    exact psb_esc 'f' '\x0c' rfl (by decide) t
  by_cases h7 : c = '\r'
  · subst h7
    exact psb_esc 'r' '\r' rfl (by decide) t
  by_cases h8 : c.toNat < 32
  · rw [show escChar c ++ t = '\\' :: 'u' :: '0' :: '0' ::
        hexDigit (c.toNat / 16) :: hexDigit (c.toNat % 16) :: t from by
      simp [escChar, h1, h2, h3, h4, h5, h6, h7, h8]]
    exact psb_u c h8 t
  · rw [show escChar c ++ t = c :: t from by
      simp [escChar, h1, h2, h3, h4, h5, h6, h7, h8]]
    exact psb_cons_lit c h1 h2 t

theorem psb_encoded (cs : List Char) (t : List Char) :
    parseStringBody ((cs.map escChar).flatten ++ '"' :: t) = some (cs, t) := by
  induction cs with
  | nil =>
      simp only [List.map_nil, List.flatten_nil, List.nil_append]
      rw [parseStringBody.eq_def]
      split
      · rename_i heq
        exact absurd heq (by simp)
      · rename_i c2 cs2 heq
        injection heq with h1 h2
        subst h1
        subst h2
        rw [if_pos rfl]
  | cons c cs ih =>
      rw [List.map_cons, List.flatten_cons, List.append_assoc, psb_escChar, ih]
      rfl

theorem parseJString_encoded (ws : List Char) (s : String) (t : List Char)
    (hws : ∀ c ∈ ws, isWsChar c = true) :
    parseJString (ws ++ (encodeString s ++ t)) = some (s, t) := by
  unfold parseJString
  rw [skipWs_append_ws ws _ hws,
    show encodeString s ++ t =
      '"' :: ((s.data.map escChar).flatten ++ '"' :: t) from by
        simp [encodeString],
    skipWs_cons_not _ _ (by decide)]
  simp only [List.head?_cons, List.tail_cons]
  rw [if_pos trivial, psb_encoded]
  rfl

/-! ## The JSON round trip: entries, records, the array -/

theorem ws_append_all (ws1 ws2 : List Char)
    (h1 : ∀ c ∈ ws1, isWsChar c = true) (h2 : ∀ c ∈ ws2, isWsChar c = true) :
    ∀ c ∈ ws1 ++ ws2, isWsChar c = true := by
  intro c hc
  rcases List.mem_append.mp hc with h | h
  exacts [h1 c h, h2 c h]

theorem ws_indent4 : ∀ c ∈ indent4, isWsChar c = true := by decide

theorem ws_indent8 : ∀ c ∈ indent8, isWsChar c = true := by decide

theorem ws_nl : ∀ c ∈ ['\n'], isWsChar c = true := by decide

theorem ws_space : ∀ c ∈ [' '], isWsChar c = true := by decide

theorem some_bind_eq {α β : Type} (a : α) (f : α → Option β) :
    (some a).bind f = f a := rfl

theorem parseEntries_encoded (es : Record) :
    ∀ (fuel : Nat) (ws rest : List Char),
      (∀ c ∈ ws, isWsChar c = true) → es ≠ [] → es.length ≤ fuel →
      parseEntriesAux fuel
          (ws ++ (encodeEntries es ++ ('\n' :: (indent4 ++ ('\x7d' :: rest))))) =
        some (es, rest) := by
  induction es with
  | nil =>
      intro fuel ws rest _ hne _
      exact absurd rfl hne
  | cons kv es ih =>
      intro fuel ws rest hws _ hlen
      cases fuel with
      | zero => simp at hlen
      | succ f =>
          cases es with
          | nil =>
              have htext : ws ++ (encodeEntries [kv] ++
                  ('\n' :: (indent4 ++ ('\x7d' :: rest)))) =
                  (ws ++ indent8) ++ (encodeString kv.1 ++
                    (':' :: (' ' :: (encodeString kv.2 ++
                      ('\n' :: (indent4 ++ ('\x7d' :: rest))))))) := by
                simp [encodeEntries]
              rw [htext]
              simp only [parseEntriesAux]
              rw [parseJString_encoded _ _ _
                (ws_append_all ws indent8 hws ws_indent8)]
              simp only [some_bind_eq]
              rw [skipWs_cons_not ':' _ (by decide)]
              simp only [List.head?_cons, List.tail_cons]
              rw [if_pos trivial]
              rw [show (' ' :: (encodeString kv.2 ++
                    ('\n' :: (indent4 ++ ('\x7d' :: rest))))) =
                  [' '] ++ (encodeString kv.2 ++
                    ('\n' :: (indent4 ++ ('\x7d' :: rest)))) from rfl]
              rw [parseJString_encoded _ _ _ ws_space]
              simp only [some_bind_eq]
              rw [show ('\n' :: (indent4 ++ ('\x7d' :: rest))) =
                  (['\n'] ++ indent4) ++ ('\x7d' :: rest) from by simp]
              rw [skipWs_append_ws _ _ (ws_append_all _ _ ws_nl ws_indent4),
                skipWs_cons_not _ _ (by decide)]
              simp only [List.head?_cons, List.tail_cons]
              rw [if_neg (by decide), if_pos trivial]
          | cons kv2 es2 =>
              have htext : ws ++ (encodeEntries (kv :: kv2 :: es2) ++
                  ('\n' :: (indent4 ++ ('\x7d' :: rest)))) =
                  (ws ++ indent8) ++ (encodeString kv.1 ++
                    (':' :: (' ' :: (encodeString kv.2 ++
                      (',' :: ('\n' :: (encodeEntries (kv2 :: es2) ++
                        ('\n' :: (indent4 ++ ('\x7d' :: rest)))))))))) := by
                simp [encodeEntries]
              rw [htext]
              simp only [parseEntriesAux]
              rw [parseJString_encoded _ _ _
                (ws_append_all ws indent8 hws ws_indent8)]
              simp only [some_bind_eq]
              rw [skipWs_cons_not ':' _ (by decide)]
              simp only [List.head?_cons, List.tail_cons]
              rw [if_pos trivial]
              rw [show (' ' :: (encodeString kv.2 ++
                    (',' :: ('\n' :: (encodeEntries (kv2 :: es2) ++
                      ('\n' :: (indent4 ++ ('\x7d' :: rest)))))))) =
                  [' '] ++ (encodeString kv.2 ++
                    (',' :: ('\n' :: (encodeEntries (kv2 :: es2) ++
                      ('\n' :: (indent4 ++ ('\x7d' :: rest))))))) from rfl]
              rw [parseJString_encoded _ _ _ ws_space]
              simp only [some_bind_eq]
              rw [skipWs_cons_not ',' _ (by decide)]
              simp only [List.head?_cons, List.tail_cons]
              rw [if_pos trivial]
              rw [show ('\n' :: (encodeEntries (kv2 :: es2) ++
                    ('\n' :: (indent4 ++ ('\x7d' :: rest))))) =
                  ['\n'] ++ (encodeEntries (kv2 :: es2) ++
                    ('\n' :: (indent4 ++ ('\x7d' :: rest)))) from rfl]
              rw [ih f ['\n'] rest ws_nl (by simp)
                (by simp only [List.length_cons] at hlen ⊢; omega)]
              rfl

theorem encodeEntries_cons_shape (kv : String × String) (es : Filter) :
    ∃ X, encodeEntries (kv :: es) = indent8 ++ (encodeString kv.1 ++ X) := by
  cases es with
  | nil => exact ⟨':' :: (' ' :: encodeString kv.2), by simp [encodeEntries]⟩
  | cons kv2 es2 =>
      exact ⟨':' :: (' ' :: (encodeString kv.2 ++
        (',' :: ('\n' :: encodeEntries (kv2 :: es2))))),
        by simp [encodeEntries]⟩

theorem parseRecordAt_encoded (r : Record) (fuel : Nat) (ws rest : List Char)
    (hws : ∀ c ∈ ws, isWsChar c = true) (hfuel : r.length ≤ fuel) :
    parseRecordAt fuel (ws ++ (encodeRecord r ++ rest)) = some (r, rest) := by
  cases r with
  | nil =>
      have htext : ws ++ (encodeRecord [] ++ rest) =
          ws ++ ('\x7b' :: ('\x7d' :: rest)) := by
        simp [encodeRecord]
      rw [htext]
      unfold parseRecordAt
      rw [skipWs_append_ws _ _ hws, skipWs_cons_not _ _ (by decide)]
      simp only [List.head?_cons, List.tail_cons]
      rw [if_pos trivial, skipWs_cons_not _ _ (by decide)]
      simp only [List.head?_cons, List.tail_cons]
      rw [if_pos trivial]
  | cons kv es =>
      have htext : ws ++ (encodeRecord (kv :: es) ++ rest) =
          ws ++ ('\x7b' :: ('\n' :: (encodeEntries (kv :: es) ++
            ('\n' :: (indent4 ++ ('\x7d' :: rest)))))) := by
        simp [encodeRecord]
      rw [htext]
      unfold parseRecordAt
      rw [skipWs_append_ws _ _ hws, skipWs_cons_not _ _ (by decide)]
      simp only [List.head?_cons, List.tail_cons]
      rw [if_pos trivial]
      obtain ⟨X, hX⟩ := encodeEntries_cons_shape kv es
      have hskip : skipWs ('\n' :: (encodeEntries (kv :: es) ++
          ('\n' :: (indent4 ++ ('\x7d' :: rest))))) =
          '"' :: (((kv.1.data.map escChar).flatten ++ ['"']) ++
            (X ++ ('\n' :: (indent4 ++ ('\x7d' :: rest))))) := by
        rw [hX]
        rw [show ('\n' :: ((indent8 ++ (encodeString kv.1 ++ X)) ++
            ('\n' :: (indent4 ++ ('\x7d' :: rest))))) =
            (['\n'] ++ indent8) ++ (encodeString kv.1 ++
              (X ++ ('\n' :: (indent4 ++ ('\x7d' :: rest))))) from by simp]
        rw [skipWs_append_ws _ _ (ws_append_all _ _ ws_nl ws_indent8)]
        rw [show encodeString kv.1 ++
            (X ++ ('\n' :: (indent4 ++ ('\x7d' :: rest)))) =
            '"' :: (((kv.1.data.map escChar).flatten ++ ['"']) ++
              (X ++ ('\n' :: (indent4 ++ ('\x7d' :: rest))))) from by
          simp [encodeString]]
        exact skipWs_cons_not _ _ (by decide)
      rw [hskip]
      simp only [List.head?_cons]
      rw [if_neg (by decide)]
      rw [show ('\n' :: (encodeEntries (kv :: es) ++
          ('\n' :: (indent4 ++ ('\x7d' :: rest))))) =
          ['\n'] ++ (encodeEntries (kv :: es) ++
            ('\n' :: (indent4 ++ ('\x7d' :: rest)))) from rfl]
      exact parseEntries_encoded (kv :: es) fuel ['\n'] rest ws_nl
        (by simp) hfuel

theorem parseRecords_encoded (ds : List Record) :
    ∀ (fuel : Nat) (ws rest : List Char),
      (∀ c ∈ ws, isWsChar c = true) → ds ≠ [] → sizeBound ds ≤ fuel →
      parseRecordsAux fuel
          (ws ++ (encodeElems ds ++ ('\n' :: (']' :: rest)))) =
        some (ds, rest) := by
  induction ds with
  | nil =>
      intro _ _ _ _ hne _
      exact absurd rfl hne
  | cons r ds ih =>
      intro fuel ws rest hws _ hfuel
      cases fuel with
      | zero =>
          simp only [sizeBound] at hfuel
          omega
      | succ f =>
          have hfr : r.length ≤ f := by
            simp only [sizeBound] at hfuel
            omega
          cases ds with
          | nil =>
              have htext : ws ++ (encodeElems [r] ++ ('\n' :: (']' :: rest))) =
                  (ws ++ indent4) ++ (encodeRecord r ++
                    ('\n' :: (']' :: rest))) := by
                simp [encodeElems]
              rw [htext]
              simp only [parseRecordsAux]
              rw [parseRecordAt_encoded r f _ _
                (ws_append_all _ _ hws ws_indent4) hfr]
              simp only [some_bind_eq]
              rw [show ('\n' :: (']' :: rest)) = ['\n'] ++ (']' :: rest)
                from rfl]
              rw [skipWs_append_ws _ _ ws_nl, skipWs_cons_not _ _ (by decide)]
              simp only [List.head?_cons, List.tail_cons]
              rw [if_neg (by decide), if_pos trivial]
          | cons r2 ds2 =>
              have htext : ws ++ (encodeElems (r :: r2 :: ds2) ++
                  ('\n' :: (']' :: rest))) =
                  (ws ++ indent4) ++ (encodeRecord r ++
                    (',' :: ('\n' :: (encodeElems (r2 :: ds2) ++
                      ('\n' :: (']' :: rest)))))) := by
                simp [encodeElems]
              rw [htext]
              simp only [parseRecordsAux]
              rw [parseRecordAt_encoded r f _ _
                (ws_append_all _ _ hws ws_indent4) hfr]
              simp only [some_bind_eq]
              rw [skipWs_cons_not ',' _ (by decide)]
              simp only [List.head?_cons, List.tail_cons]
              rw [if_pos trivial]
              rw [show ('\n' :: (encodeElems (r2 :: ds2) ++
                  ('\n' :: (']' :: rest)))) =
                  ['\n'] ++ (encodeElems (r2 :: ds2) ++
                    ('\n' :: (']' :: rest))) from rfl]
              rw [ih f ['\n'] rest ws_nl (by simp)
                (by simp only [sizeBound] at hfuel ⊢; omega)]
              rfl

theorem encodeEntries_length (es : List (String × String)) :
    es.length ≤ (encodeEntries es).length := by
  induction es with
  | nil => simp [encodeEntries]
  | cons kv es ih =>
      cases es with
      | nil =>
          simp [encodeEntries, indent8, indent4]
      | cons kv2 es2 =>
          simp only [encodeEntries, List.length_append, List.length_cons] at *
          omega

theorem encodeRecord_length (r : Record) :
    r.length + 1 ≤ (encodeRecord r).length := by
  cases r with
  | nil => simp [encodeRecord]
  | cons kv es =>
      have h := encodeEntries_length (kv :: es)
      have h4 : indent4.length = 4 := rfl
      simp only [encodeRecord, List.length_cons, List.length_append] at *
      omega

theorem sizeBound_le_encodeElems (ds : List Record) :
    sizeBound ds ≤ (encodeElems ds).length := by
  induction ds with
  | nil => simp [sizeBound, encodeElems]
  | cons r ds ih =>
      have hr := encodeRecord_length r
      have h4 : indent4.length = 4 := rfl
      cases ds with
      | nil =>
          simp only [sizeBound, encodeElems, List.length_append] at *
          omega
      | cons r2 ds2 =>
          simp only [sizeBound, encodeElems, List.length_append,
            List.length_cons] at *
          omega

theorem sizeBound_le_encodeData (ds : List Record) :
    sizeBound ds ≤ (encodeData ds).length := by
  cases ds with
  | nil => simp [sizeBound, encodeData]
  | cons r ds2 =>
      have h := sizeBound_le_encodeElems (r :: ds2)
      simp only [encodeData, List.length_cons, List.length_append] at *
      omega

/-- Parsing inverts serialization: `JSON.parse` recovers exactly the
record sequence that `JSON.stringify(_, null, 4)` wrote. -/
theorem parse_stringify (ds : List Record) :
    parseData (stringifyData ds) = some ds := by
  cases ds with
  | nil => rfl
  | cons r ds2 =>
      unfold parseData
      have hdata : (stringifyData (r :: ds2)).data = encodeData (r :: ds2) :=
        rfl
      rw [hdata]
      have htext : encodeData (r :: ds2) =
          '[' :: ('\n' :: (encodeElems (r :: ds2) ++
            ('\n' :: (']' :: ([] : List Char))))) := by
        simp [encodeData]
      rw [htext]
      rw [skipWs_cons_not _ _ (by decide)]
      simp only [List.head?_cons, List.tail_cons]
      rw [if_pos trivial]
      obtain ⟨X, hX⟩ : ∃ X, encodeRecord r = '\x7b' :: X := by
        cases r with
        | nil => exact ⟨['\x7d'], rfl⟩
        | cons kv es => exact ⟨_, rfl⟩
      obtain ⟨Y, hY⟩ : ∃ Y, encodeElems (r :: ds2) =
          indent4 ++ ('\x7b' :: Y) := by
        cases ds2 with
        | nil => exact ⟨X, by simp [encodeElems, hX]⟩
        | cons r2 ds3 =>
            exact ⟨X ++ (',' :: ('\n' :: encodeElems (r2 :: ds3))),
              by simp [encodeElems, hX]⟩
      have hskip : skipWs ('\n' :: (encodeElems (r :: ds2) ++
          ('\n' :: (']' :: ([] : List Char))))) =
          '\x7b' :: (Y ++ ('\n' :: (']' :: ([] : List Char)))) := by
        rw [hY]
        rw [show ('\n' :: ((indent4 ++ ('\x7b' :: Y)) ++
            ('\n' :: (']' :: ([] : List Char))))) =
            (['\n'] ++ indent4) ++ ('\x7b' ::
              (Y ++ ('\n' :: (']' :: ([] : List Char))))) from by simp]
        rw [skipWs_append_ws _ _ (ws_append_all _ _ ws_nl ws_indent4)]
        exact skipWs_cons_not _ _ (by decide)
      simp only [hskip, List.head?_cons]
      rw [if_neg (by decide)]
      rw [show ('\n' :: (encodeElems (r :: ds2) ++
          ('\n' :: (']' :: ([] : List Char))))) =
          ['\n'] ++ (encodeElems (r :: ds2) ++
            ('\n' :: (']' :: ([] : List Char)))) from rfl]
      rw [parseRecords_encoded (r :: ds2) _ ['\n'] [] ws_nl (by simp)
        (by
          have hsz := sizeBound_le_encodeData (r :: ds2)
          rw [htext] at hsz
          simpa using hsz)]
      rfl

/-! ## Claim C9: save/load round trip -/

theorem userbase_ok_inv (rf contents : Option String) (db : DB)
    (h : userbase rf contents = Except.ok db) :
    parseData db.file = some db.data ∧ strTruthy rf = true := by
  unfold userbase at h
  by_cases hrf : strTruthy rf
  · rw [if_neg (by simp [hrf])] at h
    cases hp : parseData (contents.getD "[]") with
    | none =>
        rw [hp] at h
        exact absurd h (by simp)
    | some d =>
        rw [hp] at h
        have h2 : (Except.ok { data := d, file := contents.getD "[]" } :
            Except String DB) = Except.ok db := h
        have h3 : ({ data := d, file := contents.getD "[]" } : DB) = db := by
          simpa using h2
        subst h3
        exact ⟨hp, hrf⟩
  · rw [if_pos (by simp [hrf])] at h
    exact absurd h (by simp)

theorem add_success_file (re : String → String → Bool) (tok theId : String)
    (db : DB) (input : Option FieldSpecs) (u : Record) (db2 : DB)
    (h : add re tok theId db input = Except.ok (AddOutcome.success u, db2)) :
    db2.file = stringifyData db2.data := by
  cases input with
  | none => exact absurd h (by simp [add])
  | some inp =>
      rw [add_some] at h
      by_cases hs : strTruthy ((inp.foldl (addStep re db) ([], none)).2)
      · rw [if_pos hs] at h
        exact absurd h (by simp)
      · rw [if_neg hs] at h
        obtain ⟨-, rfl⟩ := by simpa using h
        rfl

theorem runAdds_inv (re : String → String → Bool) (calls : List AddCall) :
    ∀ (db db1 : DB), parseData db.file = some db.data →
      runAddsOk re db calls = some db1 →
      parseData db1.file = some db1.data := by
  induction calls with
  | nil =>
      intro db db1 hinv h
      have h2 : some db = some db1 := h
      obtain rfl : db = db1 := by simpa using h2
      exact hinv
  | cons c cs ih =>
      intro db db1 hinv h
      simp only [runAddsOk] at h
      cases hadd : add re c.tok c.theId db c.input with
      | error e =>
          rw [hadd] at h
          exact absurd (show (none : Option DB) = some db1 from h) (by simp)
      | ok val =>
          obtain ⟨outcome, dbn⟩ := val
          cases outcome with
          | failure m =>
              rw [hadd] at h
              exact absurd (show (none : Option DB) = some db1 from h)
                (by simp)
          | success u =>
              rw [hadd] at h
              have h2 : runAddsOk re dbn cs = some db1 := h
              have hfile := add_success_file re c.tok c.theId db c.input u
                dbn hadd
              refine ih dbn db1 ?_ h2
              rw [hfile]
              exact parse_stringify dbn.data

/-- Claim C9: constructing a store over a file, performing any sequence
of successful `add` calls, and constructing a fresh store over the same
file yields the identical record sequence — save followed by load is the
identity on the record sequence. -/
theorem claim_C9_roundtrip (re : String → String → Bool)
    (rf contents : Option String) (db0 db1 db2 : DB) (calls : List AddCall)
    (h0 : userbase rf contents = Except.ok db0)
    (h1 : runAddsOk re db0 calls = some db1)
    (h2 : userbase rf (some db1.file) = Except.ok db2) :
    db2.data = db1.data := by
  obtain ⟨hinv0, hrf⟩ := userbase_ok_inv rf contents db0 h0
  have hinv1 := runAdds_inv re calls db0 db1 hinv0 h1
  unfold userbase at h2
  rw [if_neg (by simp [hrf])] at h2
  rw [show (some db1.file).getD "[]" = db1.file from rfl] at h2
  rw [hinv1] at h2
  have h3 : (Except.ok { data := db1.data, file := db1.file } :
      Except String DB) = Except.ok db2 := h2
  have h4 : ({ data := db1.data, file := db1.file } : DB) = db2 := by
    simpa using h3
  rw [← h4]

/-- Witness for C9: open a store over an empty array, add one record,
and re-open the store over the written file; the record sequences agree. -/
theorem claim_C9_roundtrip_witness :
    userbase (some "root.json") (some "[]") = Except.ok ⟨[], "[]"⟩ ∧
    runAddsOk (fun _ _ => true) ⟨[], "[]"⟩
        [⟨"T", "I", some [("username", ⟨"alice", false, none⟩)]⟩] =
      some ⟨[[("username", "alice"), ("token", "T"), ("id", "I")]],
        stringifyData [[("username", "alice"), ("token", "T"), ("id", "I")]]⟩ ∧
    (⟨[[("username", "alice"), ("token", "T"), ("id", "I")]],
      stringifyData [[("username", "alice"), ("token", "T"), ("id", "I")]]⟩ :
        DB).data =
      (⟨[[("username", "alice"), ("token", "T"), ("id", "I")]],
        stringifyData [[("username", "alice"), ("token", "T"), ("id", "I")]]⟩ :
          DB).data :=
  ⟨rfl, rfl,
   claim_C9_roundtrip (fun _ _ => true) (some "root.json") (some "[]")
     ⟨[], "[]"⟩
     ⟨[[("username", "alice"), ("token", "T"), ("id", "I")]],
       stringifyData [[("username", "alice"), ("token", "T"), ("id", "I")]]⟩
     ⟨[[("username", "alice"), ("token", "T"), ("id", "I")]],
       stringifyData [[("username", "alice"), ("token", "T"), ("id", "I")]]⟩
     [⟨"T", "I", some [("username", ⟨"alice", false, none⟩)]⟩]
     rfl rfl rfl⟩

end Nlogin

